import Mathlib

set_option maxHeartbeats 1000000
set_option maxRecDepth 4000

/-!
Shallow embedding of `crabml-core/src/tensor/tensor.rs` (`CpuTensor` together
with `TensorIterator` and `Tensor1DIterator`).

Buffer elements are modelled as `Int`: the Rust code stores `f32` but never
performs arithmetic on the stored values — it only moves, copies and compares
them — so any decidable element type is a faithful model.  `usize` values are
modelled as `Nat`.  Where the Rust code would panic (slice index out of
bounds, or `usize` subtraction underflow), the model returns `PResult.panic`.
The `Cow<[f32]>` ownership mode is modelled by a boolean `owned` field:
`Cow::Owned` is `true`, `Cow::Borrowed` is `false`.
-/

/-- Model of `crabml::error::ErrorKind` (only the variant used by this file). -/
inductive ErrorKind where
  | TensorError
deriving DecidableEq

/-- Model of `crabml::error::Error` (the `cause` field is always `None` in
this file and is omitted). -/
structure Error where
  kind : ErrorKind
  message : String
deriving DecidableEq

/-- Outcome of a Rust call: `Ok`, `Err`, or a panic raised inside the call. -/
inductive PResult (α : Type) where
  | ok : α → PResult α
  | err : Error → PResult α
  | panic : PResult α
deriving DecidableEq

/-- The call returned `Err` with kind `TensorError`. -/
def PResult.isTensorError {α : Type} : PResult α → Bool
  | .err e => e.kind == ErrorKind.TensorError
  | _ => false

/-- Model of the `CpuTensor` struct. -/
structure CpuTensor where
  buf : List Int
  owned : Bool
  shape : List Nat
  strides : List Nat
  name : Option String
deriving DecidableEq

/-- State of the stride vector in `CpuTensor::new_unchecked` after `k`
iterations of its loop: starts as `vec![1]`, and iteration `i` pushes
`strides.last() * shape[shape.len() - i - 1]`. -/
def stridesLoop (shape : List Nat) : Nat → List Nat
  | 0 => [1]
  | k + 1 =>
    let prev := stridesLoop shape k
    prev ++ [prev.getLastD 1 * shape.getD (shape.length - k - 1) 0]

/-- Strides computed by `CpuTensor::new_unchecked`: run the loop for
`shape.len() - 1` iterations, then reverse.  For an empty shape the Rust
loop bound `shape.len() - 1` underflows on `usize` and the loop body reads
`shape` out of bounds, so the call panics; this is modelled as `none`. -/
def newStrides (shape : List Nat) : Option (List Nat) :=
  if shape.length = 0 then none
  else some (stridesLoop shape (shape.length - 1)).reverse

/-- Model of `CpuTensor::new_unchecked`. -/
def CpuTensor.new_unchecked (buf : List Int) (owned : Bool) (shape : List Nat) :
    PResult CpuTensor :=
  match newStrides shape with
  | none => .panic
  | some strides => .ok ⟨buf, owned, shape, strides, none⟩

/-- Model of `CpuTensor::new`. -/
def CpuTensor.new (buf : List Int) (owned : Bool) (shape : List Nat) :
    PResult CpuTensor :=
  if buf.length ≠ shape.prod then
    .err ⟨.TensorError, "invalid shape for data length"⟩
  else
    CpuTensor.new_unchecked buf owned shape

/-- Model of `CpuTensor::is_owned`. -/
def CpuTensor.is_owned (t : CpuTensor) : Bool := t.owned

/-- Model of `CpuTensor::len`: `self.shape.iter().product()`. -/
def CpuTensor.len (t : CpuTensor) : Nat := t.shape.prod

/-- Model of `CpuTensor::ref_buf`. -/
def CpuTensor.ref_buf (t : CpuTensor) : List Int := t.buf

/-- Model of `CpuTensor::buf_offset`: sum of `dim * stride` over
`idx.iter().zip(strides.iter())`. -/
def CpuTensor.buf_offset (t : CpuTensor) (idx : List Nat) : Nat :=
  (List.zipWith (fun d s => d * s) idx t.strides).sum

/-- Model of `CpuTensor::at` (including the `at_unchecked` buffer read, which
panics when the computed offset is outside the buffer). -/
def CpuTensor.at (t : CpuTensor) (idx : List Nat) : PResult Int :=
  if idx.length ≠ t.shape.length then
    .err ⟨.TensorError, "invalid index for tensor shape"⟩
  else if (idx.zip t.shape).any (fun p => decide (p.1 ≥ p.2)) then
    .err ⟨.TensorError, "invalid index for tensor shape"⟩
  else
    match t.buf[t.buf_offset idx]? with
    | some v => .ok v
    | none => .panic

/-- Model of `CpuTensor::transpose`.  Only the permutation length is checked;
an entry `≥ rank` makes the `new_shape[i] = self.shape[perm[i]]` loop (or the
matching strides loop) index out of bounds and panic. -/
def CpuTensor.transpose (t : CpuTensor) (perm : List Nat) : PResult CpuTensor :=
  if perm.length ≠ t.shape.length then
    .err ⟨.TensorError, "invalid transpose for tensor shape"⟩
  else if perm.all
      (fun d => decide (d < t.shape.length) && decide (d < t.strides.length)) then
    .ok ⟨t.buf, t.owned,
      perm.map (fun d => t.shape.getD d 0),
      perm.map (fun d => t.strides.getD d 0),
      t.name⟩
  else .panic

/-- State of the loop in `CpuTensor::is_contiguous`: iterates `i` from
`shape.len() - 1` down to `1`, comparing `strides[i]` with the running
product `last_stride` and then multiplying `last_stride` by `shape[i]`.
Note the loop stops at `i == 1`, so `strides[0]` is never inspected. -/
def contigGo (shape strides : List Nat) : Nat → Nat → Bool
  | 0, _last => true
  | j + 1, last =>
    if strides.getD (j + 1) 0 ≠ last then false
    else contigGo shape strides j (last * shape.getD (j + 1) 0)

/-- Model of `CpuTensor::is_contiguous`. -/
def CpuTensor.is_contiguous (t : CpuTensor) : Bool :=
  if t.strides.length = 0 then true
  else if t.strides.getLastD 0 ≠ 1 then false
  else contigGo t.shape t.strides (t.shape.length - 1) 1

/-- Multi-index decomposition performed by `TensorIterator::next`, processing
dimensions from the last one: `idx = lp % dim; lp = (lp - idx) / dim`.
The argument is the shape already reversed. -/
def unravelRev : List Nat → Nat → List Nat
  | [], _ => []
  | d :: rest, lp => (lp % d) :: unravelRev rest ((lp - lp % d) / d)

/-- The multi-index written into `idx_buf` by `TensorIterator::next` at
logical position `lp`. -/
def unravel (shape : List Nat) (lp : Nat) : List Nat :=
  (unravelRev shape.reverse lp).reverse

/-- Model of `CpuTensor::iter` run to exhaustion.  Rank-1 tensors use
`Tensor1DIterator` (bounded by `shape[0]`, offset `lp * strides[0]`); every
other rank uses `TensorIterator`, which is bounded by `buf.len()` — not by
`product(shape)` — and addresses through the decomposed multi-index.
Both iterators read `buf[offset]`, which panics in Rust when the strided
offset falls outside the buffer; the model reads with `getD _ 0` instead, so
every theorem about `iter` carries an in-bounds hypothesis
(`buf_offset (unravel shape k) < buf.length` for each logical position `k`)
restricting it to the states where the model and the program coincide. -/
def CpuTensor.iter (t : CpuTensor) : List Int :=
  if t.shape.length = 1 then
    (List.range (t.shape.getD 0 0)).map
      (fun lp => t.buf.getD (lp * t.strides.getD 0 0) 0)
  else
    (List.range t.buf.length).map
      (fun lp => t.buf.getD (t.buf_offset (unravel t.shape lp)) 0)

/-- Model of `CpuTensor::subtensor`.  `slice_buf` keeps the ownership mode of
the source (`Cow::Borrowed` re-borrows, `Cow::Owned` copies into a new owned
vector); slicing out of the buffer's range panics. -/
def CpuTensor.subtensor (t : CpuTensor) (row : Nat) : PResult CpuTensor :=
  if t.shape.length ≤ 1 then
    .err ⟨.TensorError, "cannot subtensor a 1D tensor"⟩
  else if t.is_contiguous then
    let offset := row * t.strides.getD 0 0
    if offset + t.strides.getD 0 0 ≤ t.buf.length then
      .ok ⟨(t.buf.drop offset).take (t.strides.getD 0 0), t.owned,
        t.shape.tail, t.strides.tail, t.name⟩
    else .panic
  else
    let offset := t.buf_offset (row :: List.replicate (t.shape.length - 1) 0)
    if offset ≤ t.buf.length then
      .ok ⟨t.buf.drop offset, t.owned, t.shape.tail, t.strides.tail, t.name⟩
    else .panic

/-- Model of `CpuTensor::contiguous`: a clone when already contiguous,
otherwise `Self::new` over the collected iteration order (the collected
vector is owned). -/
def CpuTensor.contiguous (t : CpuTensor) : PResult CpuTensor :=
  if t.is_contiguous then .ok t
  else CpuTensor.new t.iter true t.shape

/-- Model of `CpuTensor::ref_chunk`, returning the selected sub-slice.
With an empty position, `strides[pos.len() - 1]` underflows on `usize` and
the call panics before any slice is produced. -/
def CpuTensor.ref_chunk (t : CpuTensor) (pos : List Nat) : PResult (List Int) :=
  if ¬ t.is_contiguous then
    .err ⟨.TensorError, "tensor have to be contiguous to get chunk"⟩
  else if pos.length ≥ t.shape.length then
    .err ⟨.TensorError, "invalid chunk position for tensor shape"⟩
  else if pos.length = 0 then .panic
  else
    let offset_start :=
      (List.zipWith (fun p s => p * s) pos t.strides).sum
    let offset_end := offset_start + t.strides.getD (pos.length - 1) 0
    if offset_end ≤ t.buf.length then
      .ok ((t.buf.drop offset_start).take (offset_end - offset_start))
    else .panic

/-- Model of `CpuTensor::mut_chunk`, returning the half-open offset range of
the mutable sub-slice it hands out.  The ownership check sits between the
contiguity check and the position-length check. -/
def CpuTensor.mut_chunk (t : CpuTensor) (pos : List Nat) : PResult (Nat × Nat) :=
  if ¬ t.is_contiguous then
    .err ⟨.TensorError, "tensor have to be contiguous to get chunk"⟩
  else if ¬ t.is_owned then
    .err ⟨.TensorError, "only owned tensor can be mut"⟩
  else if pos.length ≥ t.shape.length then
    .err ⟨.TensorError, "invalid mut chunk position for tensor shape"⟩
  else if pos.length = 0 then .panic
  else
    let offset_start :=
      (List.zipWith (fun p s => p * s) pos t.strides).sum
    let offset_end := offset_start + t.strides.getD (pos.length - 1) 0
    if offset_end ≤ t.buf.length then .ok (offset_start, offset_end)
    else .panic

/-- Writing through the mutable slice returned by `mut_chunk`: replace the
elements in `[s, e)` of the buffer with `data`. -/
def CpuTensor.write_range (t : CpuTensor) (s e : Nat) (data : List Int) :
    CpuTensor :=
  { t with buf := t.buf.take s ++ data ++ t.buf.drop e }

/-- Model of `CpuTensor::copy_chunk`: obtain the mutable chunk and
`copy_from_slice` the flat buffer of `data` into it (`copy_from_slice`
panics when the lengths differ). -/
def CpuTensor.copy_chunk (t : CpuTensor) (pos : List Nat) (data : CpuTensor) :
    PResult CpuTensor :=
  match t.mut_chunk pos with
  | .ok (s, e) =>
    if data.ref_buf.length = e - s then .ok (t.write_range s e data.ref_buf)
    else .panic
  | .err er => .err er
  | .panic => .panic

/-- Model of `CpuTensor::mut_buf`, returning the buffer that becomes
mutable. -/
def CpuTensor.mut_buf (t : CpuTensor) : PResult (List Int) :=
  match t.owned with
  | false => .err ⟨.TensorError, "can not mut a borrowed tensor"⟩
  | true => .ok t.buf

/-- Canonical row-major strides of a shape: `strides[i]` is the product of
the dimensions after `i`.  This is the specification-side definition, to be
compared with the loop in `new_unchecked`. -/
def canonStrides : List Nat → List Nat
  | [] => []
  | _ :: rest => rest.prod :: canonStrides rest

/-! ### Basic facts about `canonStrides` -/

theorem canonStrides_length (s : List Nat) : (canonStrides s).length = s.length := by
  induction s with
  | nil => rfl
  | cons d rest ih => simp [canonStrides, ih]

theorem canonStrides_getD (s : List Nat) (i : Nat) (h : i < s.length) :
    (canonStrides s).getD i 0 = (s.drop (i + 1)).prod := by
  induction s generalizing i with
  | nil => simp at h
  | cons d rest ih =>
    cases i with
    | zero => simp [canonStrides]
    | succ j =>
      simp only [canonStrides, List.getD_cons_succ, List.drop_succ_cons]
      exact ih j (by simpa using h)

theorem getLastD_eq_getD {α : Type} (l : List α) (d : α) :
    l.getLastD d = l.getD (l.length - 1) d := by
  rw [List.getLastD_eq_getLast?, List.getLast?_eq_getElem?, List.getD_eq_getElem?_getD]

theorem getLastD_eq_headD_reverse {α : Type} (l : List α) (d : α) :
    l.getLastD d = l.reverse.headD d := by
  rw [List.getLastD_eq_getLast?, List.getLast?_eq_head?_reverse, List.headD_eq_head?_getD]

theorem canonStrides_getLastD (s : List Nat) (h : s ≠ []) :
    (canonStrides s).getLastD 0 = 1 := by
  have hn : 0 < s.length := List.length_pos.mpr h
  rw [getLastD_eq_getD, canonStrides_length, canonStrides_getD s _ (by omega)]
  have : s.length - 1 + 1 = s.length := by omega
  rw [this, List.drop_length, List.prod_nil]

/-! ### The stride loop of `new_unchecked` computes `canonStrides` -/

theorem canonStrides_drop_pred (shape : List Nat) (m : Nat) (h1 : 1 ≤ m)
    (h2 : m < shape.length) :
    canonStrides (shape.drop (m - 1))
      = ((canonStrides (shape.drop m)).headD 1 * shape.getD m 0)
        :: canonStrides (shape.drop m) := by
  have hm1 : m - 1 < shape.length := by omega
  rw [List.drop_eq_getElem_cons hm1]
  have hstep : m - 1 + 1 = m := by omega
  rw [hstep]
  simp only [canonStrides]
  congr 1
  rw [List.drop_eq_getElem_cons h2]
  simp only [canonStrides, List.headD_cons, List.prod_cons]
  rw [List.getD_eq_getElem?_getD, List.getElem?_eq_getElem h2]
  simp [Nat.mul_comm]

theorem stridesLoop_reverse (shape : List Nat) :
    ∀ k, k < shape.length →
      (stridesLoop shape k).reverse
        = canonStrides (shape.drop (shape.length - 1 - k)) := by
  intro k
  induction k with
  | zero =>
    intro h
    have h1 : shape.length - 1 < shape.length := by omega
    simp only [Nat.sub_zero]
    rw [List.drop_eq_getElem_cons h1]
    have h2 : shape.drop (shape.length - 1 + 1) = [] :=
      List.drop_eq_nil_of_le (by omega)
    rw [h2]
    simp [stridesLoop, canonStrides]
  | succ k ih =>
    intro h
    have hk : k < shape.length := by omega
    have hm1 : shape.length - 1 - k < shape.length := by omega
    have hge1 : 1 ≤ shape.length - 1 - k := by omega
    simp only [stridesLoop, List.reverse_append, List.reverse_cons,
      List.reverse_nil, List.nil_append, List.singleton_append]
    rw [getLastD_eq_headD_reverse, ih hk]
    have hidx : shape.length - k - 1 = shape.length - 1 - k := by omega
    rw [hidx]
    have hidx2 : shape.length - 1 - (k + 1) = shape.length - 1 - k - 1 := by
      omega
    rw [hidx2]
    exact (canonStrides_drop_pred shape (shape.length - 1 - k) hge1 hm1).symm

theorem newStrides_eq_canon (shape : List Nat) (h : shape ≠ []) :
    newStrides shape = some (canonStrides shape) := by
  have hn : 0 < shape.length := List.length_pos.mpr h
  unfold newStrides
  rw [if_neg (by omega)]
  rw [stridesLoop_reverse shape (shape.length - 1) (by omega)]
  have hz : shape.length - 1 - (shape.length - 1) = 0 := by omega
  rw [hz, List.drop_zero]

/-- Shape of a successful `new`: the input data with canonical strides. -/
theorem new_ok_elim (buf : List Int) (ow : Bool) (shape : List Nat)
    (t : CpuTensor) (h : CpuTensor.new buf ow shape = .ok t) :
    buf.length = shape.prod ∧ shape ≠ []
      ∧ t = ⟨buf, ow, shape, canonStrides shape, none⟩ := by
  unfold CpuTensor.new at h
  by_cases hlen : buf.length ≠ shape.prod
  · rw [if_pos hlen] at h
    exact absurd h (by simp)
  · rw [if_neg hlen] at h
    push_neg at hlen
    unfold CpuTensor.new_unchecked at h
    by_cases hsh : shape = []
    · rw [hsh] at h
      simp [newStrides] at h
    · rw [newStrides_eq_canon shape hsh] at h
      simp only [PResult.ok.injEq] at h
      exact ⟨hlen, hsh, h.symm⟩

theorem new_isTensorError_iff (buf : List Int) (ow : Bool) (shape : List Nat) :
    (CpuTensor.new buf ow shape).isTensorError = true ↔ buf.length ≠ shape.prod := by
  unfold CpuTensor.new
  by_cases hlen : buf.length ≠ shape.prod
  · rw [if_pos hlen]
    simp [PResult.isTensorError, hlen]
  · rw [if_neg hlen]
    unfold CpuTensor.new_unchecked
    cases hns : newStrides shape with
    | none => simp [PResult.isTensorError, hlen]
    | some st => simp [PResult.isTensorError, hlen]

/-! ### The `is_contiguous` loop -/

theorem contigGo_canon (shape : List Nat) :
    ∀ j, j < shape.length →
      contigGo shape (canonStrides shape) j ((shape.drop (j + 1)).prod) = true := by
  intro j
  induction j with
  | zero => intro _; rfl
  | succ j ih =>
    intro h
    have hj : j < shape.length := by omega
    show (if (canonStrides shape).getD (j + 1) 0 ≠ (shape.drop (j + 1 + 1)).prod
        then false
        else contigGo shape (canonStrides shape) j
          ((shape.drop (j + 1 + 1)).prod * shape.getD (j + 1) 0)) = true
    rw [canonStrides_getD shape (j + 1) h, if_neg (by simp)]
    have harg : (shape.drop (j + 1 + 1)).prod * shape.getD (j + 1) 0
        = (shape.drop (j + 1)).prod := by
      rw [List.drop_eq_getElem_cons h, List.prod_cons,
        List.getD_eq_getElem?_getD, List.getElem?_eq_getElem h]
      simp [Nat.mul_comm]
    rw [harg]
    exact ih hj

theorem is_contiguous_canon (t : CpuTensor) (hs : t.strides = canonStrides t.shape) :
    t.is_contiguous = true := by
  unfold CpuTensor.is_contiguous
  by_cases h0 : t.strides.length = 0
  · rw [if_pos h0]
  · rw [if_neg h0]
    have hshape : t.shape ≠ [] := by
      intro hcon
      apply h0
      rw [hs, hcon]
      rfl
    have hlast : t.strides.getLastD 0 = 1 := by
      rw [hs]
      exact canonStrides_getLastD _ hshape
    rw [if_neg (not_not_intro hlast)]
    have hn : 0 < t.shape.length := List.length_pos.mpr hshape
    have hgo := contigGo_canon t.shape (t.shape.length - 1) (by omega)
    rw [show t.shape.length - 1 + 1 = t.shape.length from by omega,
      List.drop_length, List.prod_nil] at hgo
    rw [hs]
    exact hgo

theorem contigGo_iff_aux (shape strides : List Nat) :
    ∀ i, i < shape.length → ∀ last,
      (contigGo shape strides i last = true ↔
        ∀ j, 1 ≤ j → j ≤ i →
          strides.getD j 0 = last * ((shape.take (i + 1)).drop (j + 1)).prod) := by
  intro i
  induction i with
  | zero =>
    intro _ last
    constructor
    · intro _ j h1 h2
      exact absurd h2 (by omega)
    · intro _
      rfl
  | succ i ih =>
    intro h last
    have hi : i < shape.length := by omega
    have hx : shape[i + 1]? = some (shape.getD (i + 1) 0) := by
      rw [List.getElem?_eq_getElem h, List.getD_eq_getElem?_getD,
        List.getElem?_eq_getElem h]
      rfl
    have htake : shape.take (i + 1 + 1)
        = shape.take (i + 1) ++ [shape.getD (i + 1) 0] := by
      rw [List.take_succ, hx]
      rfl
    have hlen_take : (shape.take (i + 1)).length = i + 1 := by
      rw [List.length_take]
      omega
    have hdropnil : (shape.take (i + 1 + 1)).drop (i + 1 + 1) = [] :=
      List.drop_eq_nil_of_le (by rw [List.length_take]; omega)
    show (if strides.getD (i + 1) 0 ≠ last then false
        else contigGo shape strides i (last * shape.getD (i + 1) 0)) = true ↔ _
    by_cases hcheck : strides.getD (i + 1) 0 = last
    · rw [if_neg (not_not_intro hcheck)]
      rw [ih hi (last * shape.getD (i + 1) 0)]
      constructor
      · intro hall j h1 h2
        rcases Nat.lt_or_ge j (i + 1) with hj | hj
        · have hji : j ≤ i := by omega
          rw [htake, List.drop_append_of_le_length (by omega), List.prod_append,
            List.prod_singleton, hall j h1 hji]
          ring
        · have hji : j = i + 1 := by omega
          subst hji
          rw [hdropnil, List.prod_nil, Nat.mul_one]
          exact hcheck
      · intro hall j h1 h2
        have hj := hall j h1 (by omega)
        rw [htake, List.drop_append_of_le_length (by omega), List.prod_append,
          List.prod_singleton] at hj
        rw [hj]
        ring
    · rw [if_pos hcheck]
      simp only [Bool.false_eq_true, false_iff]
      intro hall
      apply hcheck
      have hj := hall (i + 1) (by omega) (by omega)
      rw [hdropnil, List.prod_nil, Nat.mul_one] at hj
      exact hj

theorem is_contiguous_iff_suffix (t : CpuTensor)
    (hlen : t.strides.length = t.shape.length) :
    t.is_contiguous = true ↔
      (t.strides = [] ∨
        (t.strides.getLastD 0 = 1 ∧
          ∀ i, 1 ≤ i → i < t.shape.length →
            t.strides.getD i 0 = (t.shape.drop (i + 1)).prod)) := by
  unfold CpuTensor.is_contiguous
  by_cases h0 : t.strides.length = 0
  · rw [if_pos h0]
    have : t.strides = [] := List.length_eq_zero.mp h0
    simp [this]
  · rw [if_neg h0]
    have hn : 0 < t.shape.length := by omega
    have hnotnil : t.strides ≠ [] := by
      intro hc
      exact h0 (by rw [hc]; rfl)
    by_cases hlast : t.strides.getLastD 0 = 1
    · rw [if_neg (not_not_intro hlast)]
      rw [contigGo_iff_aux t.shape t.strides (t.shape.length - 1) (by omega) 1]
      have htake : t.shape.take (t.shape.length - 1 + 1) = t.shape := by
        rw [show t.shape.length - 1 + 1 = t.shape.length from by omega,
          List.take_length]
      rw [htake]
      constructor
      · intro hall
        right
        refine ⟨hlast, ?_⟩
        intro i h1 h2
        have hi := hall i h1 (by omega)
        rw [hi, Nat.one_mul]
      · intro hor
        rcases hor with hnil | ⟨_, hall⟩
        · exact absurd hnil hnotnil
        · intro j h1 h2
          rw [Nat.one_mul]
          exact hall j h1 (by omega)
    · rw [if_pos hlast]
      simp only [Bool.false_eq_true, false_iff]
      intro hor
      rcases hor with hnil | ⟨hl, _⟩
      · exact hnotnil hnil
      · exact hlast hl

theorem suffix_iff_step (shape strides : List Nat)
    (hlen : strides.length = shape.length)
    (hlast : strides.getLastD 0 = 1) :
    (∀ i, 1 ≤ i → i < shape.length →
        strides.getD i 0 = (shape.drop (i + 1)).prod) ↔
      (∀ i, 1 ≤ i → i + 1 < shape.length →
        strides.getD i 0 = strides.getD (i + 1) 0 * shape.getD (i + 1) 0) := by
  have hbase : strides.getD (shape.length - 1) 0 = 1 := by
    rw [← hlen, ← getLastD_eq_getD strides 0]
    exact hlast
  constructor
  · intro hs i h1 h2
    rw [hs i h1 (by omega), hs (i + 1) (by omega) h2]
    rw [List.drop_eq_getElem_cons h2, List.prod_cons,
      List.getD_eq_getElem?_getD, List.getElem?_eq_getElem h2]
    simp [Nat.mul_comm]
  · intro hstep
    have key : ∀ d i, 1 ≤ i → i < shape.length → shape.length - 1 - i ≤ d →
        strides.getD i 0 = (shape.drop (i + 1)).prod := by
      intro d
      induction d with
      | zero =>
        intro i h1 h2 h3
        have hieq : i = shape.length - 1 := by omega
        subst hieq
        rw [show shape.length - 1 + 1 = shape.length from by omega,
          List.drop_length, List.prod_nil]
        exact hbase
      | succ d ih =>
        intro i h1 h2 h3
        by_cases hi : i = shape.length - 1
        · subst hi
          rw [show shape.length - 1 + 1 = shape.length from by omega,
            List.drop_length, List.prod_nil]
          exact hbase
        · have h2' : i + 1 < shape.length := by omega
          rw [hstep i h1 h2', ih (i + 1) (by omega) h2' (by omega)]
          rw [List.drop_eq_getElem_cons h2', List.prod_cons,
            List.getD_eq_getElem?_getD, List.getElem?_eq_getElem h2']
          simp [Nat.mul_comm]
    intro i h1 h2
    exact key shape.length i h1 h2 (by omega)

/-! ### Iteration: ravel and unravel -/

theorem range_map_getD {α : Type} (l : List α) (d : α) :
    (List.range l.length).map (fun i => l.getD i d) = l := by
  induction l with
  | nil => rfl
  | cons a l ih =>
    show (List.range (l.length + 1)).map _ = _
    rw [List.range_succ_eq_map, List.map_cons, List.map_map]
    simp only [List.getD_cons_zero]
    congr 1

/-- Reversed canonical strides, indexed along the reversed shape: entry `j`
is the product of the first `j` entries of the reversed shape. -/
def stridesRevOf : List Nat → List Nat
  | [] => []
  | d :: rest => 1 :: (stridesRevOf rest).map (fun x => x * d)

theorem stridesRevOf_length (rs : List Nat) :
    (stridesRevOf rs).length = rs.length := by
  induction rs with
  | nil => rfl
  | cons d rest ih => simp [stridesRevOf, ih]

theorem unravelRev_length (rs : List Nat) (lp : Nat) :
    (unravelRev rs lp).length = rs.length := by
  induction rs generalizing lp with
  | nil => rfl
  | cons d rest ih => simp [unravelRev, ih]

theorem unravel_length (shape : List Nat) (lp : Nat) :
    (unravel shape lp).length = shape.length := by
  rw [unravel, List.length_reverse, unravelRev_length, List.length_reverse]

theorem sub_mod_div (lp d : Nat) : (lp - lp % d) / d = lp / d := by
  rcases Nat.eq_zero_or_pos d with h | h
  · subst h
    simp
  · have h1 : lp - lp % d = d * (lp / d) := by
      have h2 := Nat.div_add_mod lp d
      omega
    rw [h1, Nat.mul_div_cancel_left _ h]

theorem zipWith_mul_map_right (xs ys : List Nat) (d : Nat) :
    (List.zipWith (fun a s => a * s) xs (ys.map (fun x => x * d))).sum
      = (List.zipWith (fun a s => a * s) xs ys).sum * d := by
  induction xs generalizing ys with
  | nil => simp
  | cons a xs ih =>
    cases ys with
    | nil => simp
    | cons b ys =>
      simp only [List.map_cons, List.zipWith_cons_cons, List.sum_cons, ih]
      ring

theorem sum_zipWith_mul_reverse (xs ys : List Nat) (h : xs.length = ys.length) :
    (List.zipWith (fun a s => a * s) xs.reverse ys.reverse).sum
      = (List.zipWith (fun a s => a * s) xs ys).sum := by
  induction xs generalizing ys with
  | nil => simp
  | cons a xs ih =>
    cases ys with
    | nil => simp at h
    | cons b ys =>
      have hlen : xs.length = ys.length := by simpa using h
      simp only [List.reverse_cons]
      rw [List.zipWith_append _ _ _ _ _ (by simp [hlen]), List.sum_append]
      simp only [List.zipWith_cons_cons, List.zipWith_nil_right, List.sum_cons,
        List.sum_nil, List.zipWith_cons_cons]
      rw [ih ys hlen]
      ring

theorem sum_unravelRev (rs : List Nat) :
    ∀ lp,
      (List.zipWith (fun a s => a * s) (unravelRev rs lp) (stridesRevOf rs)).sum
        = lp % rs.prod := by
  induction rs with
  | nil =>
    intro lp
    simp [unravelRev, stridesRevOf, Nat.mod_one]
  | cons d rest ih =>
    intro lp
    simp only [unravelRev, stridesRevOf, List.zipWith_cons_cons, List.sum_cons]
    rw [sub_mod_div, zipWith_mul_map_right, ih (lp / d), List.prod_cons,
      Nat.mod_mul]
    ring

theorem stridesRevOf_append (rs : List Nat) (d : Nat) :
    stridesRevOf (rs ++ [d]) = stridesRevOf rs ++ [rs.prod] := by
  induction rs with
  | nil => simp [stridesRevOf]
  | cons a rs ih =>
    show 1 :: (stridesRevOf (rs ++ [d])).map (fun x => x * a)
        = (1 :: (stridesRevOf rs).map (fun x => x * a)) ++ [(a :: rs).prod]
    rw [ih, List.map_append]
    simp [List.prod_cons, Nat.mul_comm]

theorem canonStrides_reverse (s : List Nat) :
    (canonStrides s).reverse = stridesRevOf s.reverse := by
  induction s with
  | nil => rfl
  | cons d rest ih =>
    rw [show canonStrides (d :: rest) = rest.prod :: canonStrides rest from rfl]
    rw [List.reverse_cons, ih,
      show (d :: rest).reverse = rest.reverse ++ [d] from by simp,
      stridesRevOf_append, List.prod_reverse]

theorem offset_unravel_canon (shape : List Nat) (lp : Nat) :
    (List.zipWith (fun a s => a * s) (unravel shape lp) (canonStrides shape)).sum
      = lp % shape.prod := by
  have h1 : canonStrides shape = ((canonStrides shape).reverse).reverse := by simp
  rw [unravel, h1, canonStrides_reverse,
    sum_zipWith_mul_reverse _ _
      (by rw [unravelRev_length, stridesRevOf_length]),
    sum_unravelRev, List.prod_reverse]

theorem iter_canon (t : CpuTensor) (hs : t.strides = canonStrides t.shape)
    (hbuf : t.buf.length = t.shape.prod) : t.iter = t.buf := by
  unfold CpuTensor.iter
  by_cases h1 : t.shape.length = 1
  · rw [if_pos h1]
    obtain ⟨a, ha⟩ := List.length_eq_one.mp h1
    have hstr : t.strides.getD 0 0 = 1 := by
      rw [hs, ha]
      rfl
    have hlen : t.shape.getD 0 0 = t.buf.length := by
      rw [ha, hbuf, ha]
      simp
    rw [hstr, hlen]
    have hcong : ∀ lp ∈ List.range t.buf.length,
        t.buf.getD (lp * 1) 0 = t.buf.getD lp 0 := by
      intro lp _
      rw [Nat.mul_one]
    rw [List.map_congr_left hcong]
    exact range_map_getD t.buf 0
  · rw [if_neg h1]
    have hcong : ∀ lp ∈ List.range t.buf.length,
        t.buf.getD (t.buf_offset (unravel t.shape lp)) 0 = t.buf.getD lp 0 := by
      intro lp hlp
      rw [List.mem_range] at hlp
      show t.buf.getD
        (List.zipWith (fun d s => d * s) (unravel t.shape lp) t.strides).sum 0
          = t.buf.getD lp 0
      rw [hs, offset_unravel_canon, Nat.mod_eq_of_lt (by omega)]
    rw [List.map_congr_left hcong]
    exact range_map_getD t.buf 0

theorem zip_reverse {α β : Type} :
    ∀ (xs : List α) (ys : List β), xs.length = ys.length →
      xs.reverse.zip ys.reverse = (xs.zip ys).reverse := by
  intro xs
  induction xs with
  | nil =>
    intro ys h
    cases ys with
    | nil => rfl
    | cons b ys => simp at h
  | cons a xs ih =>
    intro ys h
    cases ys with
    | nil => simp at h
    | cons b ys =>
      have hl : xs.length = ys.length := by simpa using h
      simp only [List.reverse_cons]
      rw [List.zip_append (by simp [hl]), ih ys hl]
      simp

theorem unravelRev_lt (rs : List Nat) :
    ∀ lp, (∀ d ∈ rs, 0 < d) →
      ∀ p ∈ (unravelRev rs lp).zip rs, p.1 < p.2 := by
  induction rs with
  | nil =>
    intro lp _ p hp
    simp [unravelRev] at hp
  | cons d rest ih =>
    intro lp hpos p hp
    simp only [unravelRev, List.zip_cons_cons, List.mem_cons] at hp
    rcases hp with hp | hp
    · subst hp
      exact Nat.mod_lt _ (hpos d (by simp))
    · exact ih _ (fun x hx => hpos x (by simp [hx])) p hp

theorem unravel_lt (shape : List Nat) (lp : Nat) (hpos : ∀ d ∈ shape, 0 < d) :
    ∀ p ∈ (unravel shape lp).zip shape, p.1 < p.2 := by
  intro p hp
  have hzip := zip_reverse (unravelRev shape.reverse lp) shape.reverse
    (by rw [unravelRev_length])
  rw [List.reverse_reverse] at hzip
  rw [unravel, hzip, List.mem_reverse] at hp
  exact unravelRev_lt shape.reverse lp
    (fun d hd => hpos d (List.mem_reverse.mp hd)) p hp

/-! ### Index validation in `at` -/

theorem any_zip_iff (idx shape : List Nat) (h : idx.length = shape.length) :
    (idx.zip shape).any (fun p => decide (p.1 ≥ p.2)) = true ↔
      ∃ i, i < idx.length ∧ shape.getD i 0 ≤ idx.getD i 0 := by
  rw [List.any_eq_true]
  constructor
  · rintro ⟨p, hp, hdec⟩
    rw [decide_eq_true_iff] at hdec
    obtain ⟨i, hi, hpi⟩ := List.mem_iff_getElem.mp hp
    rw [List.length_zip] at hi
    have hi1 : i < idx.length := lt_of_lt_of_le hi (min_le_left _ _)
    have hi2 : i < shape.length := lt_of_lt_of_le hi (min_le_right _ _)
    rw [List.getElem_zip] at hpi
    refine ⟨i, hi1, ?_⟩
    simp only [List.getD_eq_getElem?_getD, List.getElem?_eq_getElem hi1,
      List.getElem?_eq_getElem hi2, Option.getD_some]
    subst hpi
    exact hdec
  · rintro ⟨i, hi, hle⟩
    have hi2 : i < shape.length := by omega
    refine ⟨(idx[i], shape[i]), ?_, ?_⟩
    · rw [List.mem_iff_getElem]
      exact ⟨i, by rw [List.length_zip]; omega, by rw [List.getElem_zip]⟩
    · rw [decide_eq_true_iff]
      simp only [List.getD_eq_getElem?_getD, List.getElem?_eq_getElem hi,
        List.getElem?_eq_getElem hi2, Option.getD_some] at hle
      exact hle

theorem at_isTensorError_iff (t : CpuTensor) (idx : List Nat) :
    (t.at idx).isTensorError = true ↔
      (idx.length ≠ t.shape.length ∨
        ∃ i, i < idx.length ∧ t.shape.getD i 0 ≤ idx.getD i 0) := by
  unfold CpuTensor.at
  by_cases hlen : idx.length ≠ t.shape.length
  · rw [if_pos hlen]
    simp [PResult.isTensorError, hlen]
  · rw [if_neg hlen]
    push_neg at hlen
    by_cases hany : (idx.zip t.shape).any (fun p => decide (p.1 ≥ p.2)) = true
    · rw [if_pos hany]
      simp only [PResult.isTensorError, beq_self_eq_true, true_iff]
      right
      exact (any_zip_iff idx t.shape hlen).mp hany
    · rw [if_neg hany]
      have hrhs : ¬ (idx.length ≠ t.shape.length ∨
          ∃ i, i < idx.length ∧ t.shape.getD i 0 ≤ idx.getD i 0) := by
        rintro (hc | ⟨i, hi, hle⟩)
        · exact hc hlen
        · exact hany ((any_zip_iff idx t.shape hlen).mpr ⟨i, hi, hle⟩)
      cases hbuf : t.buf[t.buf_offset idx]? with
      | some v =>
        simp only [PResult.isTensorError, Bool.false_eq_true, false_iff]
        exact hrhs
      | none =>
        simp only [PResult.isTensorError, Bool.false_eq_true, false_iff]
        exact hrhs

theorem at_ok (t : CpuTensor) (idx : List Nat) (hlen : idx.length = t.shape.length)
    (hvalid : ∀ i, i < idx.length → idx.getD i 0 < t.shape.getD i 0)
    (v : Int) (hv : t.buf[t.buf_offset idx]? = some v) :
    t.at idx = .ok v := by
  unfold CpuTensor.at
  rw [if_neg (not_not_intro hlen)]
  have hany : ¬ ((idx.zip t.shape).any (fun p => decide (p.1 ≥ p.2)) = true) := by
    rw [any_zip_iff idx t.shape hlen]
    rintro ⟨i, hi, hle⟩
    exact absurd (hvalid i hi) (by omega)
  rw [if_neg hany, hv]

theorem pos_of_lt_prod (shape : List Nat) (k : Nat) (hk : k < shape.prod) :
    ∀ d ∈ shape, 0 < d := by
  intro d hd
  by_contra hcon
  push_neg at hcon
  have hd0 : d = 0 := by omega
  subst hd0
  have : shape.prod = 0 := List.prod_eq_zero_iff.mpr hd
  omega

theorem unravel_getD_lt (shape : List Nat) (lp : Nat)
    (hpos : ∀ d ∈ shape, 0 < d) (i : Nat) (hi : i < shape.length) :
    (unravel shape lp).getD i 0 < shape.getD i 0 := by
  have hlen := unravel_length shape lp
  have hi1 : i < (unravel shape lp).length := by omega
  have hmem : ((unravel shape lp)[i], shape[i]) ∈ (unravel shape lp).zip shape := by
    rw [List.mem_iff_getElem]
    exact ⟨i, by rw [List.length_zip]; omega, by rw [List.getElem_zip]⟩
  have := unravel_lt shape lp hpos _ hmem
  rw [List.getD_eq_getElem?_getD, List.getElem?_eq_getElem hi1,
    List.getD_eq_getElem?_getD, List.getElem?_eq_getElem hi]
  exact this

theorem getD_map_range {α : Type} (f : Nat → α) (n k : Nat) (h : k < n) (d : α) :
    ((List.range n).map f).getD k d = f k := by
  rw [List.getD_eq_getElem?_getD, List.getElem?_map, List.getElem?_range h]
  rfl

/-! ### Concrete tensors used in the specification scenarios -/

/-- Borrowed 2 × 3 tensor over `[1,2,3,4,5,6]` (specification scenario 1). -/
def ex23 : CpuTensor := ⟨[1, 2, 3, 4, 5, 6], false, [2, 3], [3, 1], none⟩

/-- Transpose of `ex23` by `[1,0]` (specification scenario 2). -/
def exT : CpuTensor := ⟨[1, 2, 3, 4, 5, 6], false, [3, 2], [1, 3], none⟩

/-- Borrowed 2 × 3 × 1 tensor over `[1..6]` (specification scenario 3). -/
def ex231 : CpuTensor := ⟨[1, 2, 3, 4, 5, 6], false, [2, 3, 1], [3, 1, 1], none⟩

/-- Owned 2 × 3 tensor over `[1..6]` (specification scenario 5). -/
def exOwned : CpuTensor := ⟨[1, 2, 3, 4, 5, 6], true, [2, 3], [3, 1], none⟩

/-- Result of `new([1..8], [2,2,2])`, `transpose([0,2,1])`, `subtensor(0)`:
a non-contiguous rank-2 view whose buffer holds all 8 source elements even
though `product(shape) = 4`. -/
def exLoose : CpuTensor := ⟨[1, 2, 3, 4, 5, 6, 7, 8], false, [2, 2], [1, 2], none⟩

/-- Result of `new([1..6], [2,1,3])` then `transpose([1,0,2])`: reported
contiguous although `strides[0]` differs from the canonical value. -/
def exC8 : CpuTensor := ⟨[1, 2, 3, 4, 5, 6], false, [1, 2, 3], [3, 3, 1], none⟩

/-! ### Claim C1 -/

/-- Claim C1: `new(buffer, shape)` fails with `TensorError` iff
`buffer.length ≠ product(shape)`; on success the returned tensor satisfies
`len() = buffer.length`, carries the canonical row-major strides
(`strides[n-1] = 1` and `strides[i] = strides[i+1] * shape[i+1]`), and is
contiguous. -/
theorem new_spec (buf : List Int) (ow : Bool) (shape : List Nat) :
    ((CpuTensor.new buf ow shape).isTensorError = true ↔ buf.length ≠ shape.prod)
    ∧ (∀ t : CpuTensor, CpuTensor.new buf ow shape = .ok t →
        t.len = buf.length
        ∧ t.strides = canonStrides t.shape
        ∧ t.strides.getLastD 0 = 1
        ∧ (∀ i, i + 1 < t.strides.length →
            t.strides.getD i 0
              = t.strides.getD (i + 1) 0 * t.shape.getD (i + 1) 0)
        ∧ t.is_contiguous = true) := by
  refine ⟨new_isTensorError_iff buf ow shape, ?_⟩
  intro t ht
  obtain ⟨hlen, hsh, hteq⟩ := new_ok_elim buf ow shape t ht
  subst hteq
  refine ⟨hlen.symm, rfl, canonStrides_getLastD shape hsh, ?_, ?_⟩
  · intro i hi
    show (canonStrides shape).getD i 0
      = (canonStrides shape).getD (i + 1) 0 * shape.getD (i + 1) 0
    rw [canonStrides_length] at hi
    rw [canonStrides_getD shape i (by omega), canonStrides_getD shape (i + 1) hi,
      List.drop_eq_getElem_cons hi, List.prod_cons,
      List.getD_eq_getElem?_getD, List.getElem?_eq_getElem hi]
    simp [Nat.mul_comm]
  · exact is_contiguous_canon _ rfl

theorem new_spec_witness :
    CpuTensor.new [1, 2, 3, 4, 5, 6] false [2, 3] = .ok ex23
    ∧ ex23.len = 6 ∧ ex23.strides = canonStrides ex23.shape
    ∧ ex23.is_contiguous = true :=
  ⟨by decide, by
    have h := (new_spec [1, 2, 3, 4, 5, 6] false [2, 3]).2 ex23 (by decide)
    exact ⟨h.1, h.2.1, h.2.2.2.2⟩⟩

/-! ### Claim C2 -/

/-- Claim C2: `at(index)` fails with `TensorError` iff
`index.length ≠ shape.length` or some `index[i] ≥ shape[i]`; for a valid
index it returns the buffer element at offset `Σ index[i] * strides[i]`.
Concretely, on the `[2,3]` tensor over `[1..6]`, `strides = [3,1]`,
`at([1,2]) = 6`, and `at([0,4])` fails. -/
theorem at_spec (t : CpuTensor) (idx : List Nat) :
    ((t.at idx).isTensorError = true ↔
        (idx.length ≠ t.shape.length ∨
          ∃ i, i < idx.length ∧ t.shape.getD i 0 ≤ idx.getD i 0))
    ∧ (idx.length = t.shape.length →
        (∀ i, i < idx.length → idx.getD i 0 < t.shape.getD i 0) →
        ∀ v, t.buf[t.buf_offset idx]? = some v → t.at idx = .ok v)
    ∧ (CpuTensor.new [1, 2, 3, 4, 5, 6] false [2, 3] = .ok ex23
        ∧ ex23.strides = [3, 1]
        ∧ ex23.at [1, 2] = .ok 6
        ∧ (ex23.at [0, 4]).isTensorError = true) :=
  ⟨at_isTensorError_iff t idx,
   fun hlen hvalid v hv => at_ok t idx hlen hvalid v hv,
   by decide⟩

theorem at_spec_witness :
    ([1, 2].length = ex23.shape.length
      ∧ ex23.buf[ex23.buf_offset [1, 2]]? = some 6)
    ∧ ex23.at [1, 2] = .ok 6 :=
  ⟨by decide,
   (at_spec ex23 [1, 2]).2.1 (by decide)
     (by decide) 6 (by decide)⟩

/-! ### Claim C3 -/

/-- Claim C3: `transpose(permutation)` fails with `TensorError` iff
`permutation.length ≠ rank`; for every genuine permutation of `0..rank-1` it
succeeds with `newShape[i] = shape[perm[i]]` and
`newStrides[i] = strides[perm[i]]` over the same buffer, and the identity
permutation returns the original tensor (same shape, strides, and hence the
same iteration order). -/
theorem transpose_spec (t : CpuTensor) (perm : List Nat)
    (hs : t.strides.length = t.shape.length) :
    ((t.transpose perm).isTensorError = true ↔ perm.length ≠ t.shape.length)
    ∧ (perm.Perm (List.range t.shape.length) →
        ∃ u, t.transpose perm = .ok u
          ∧ u.buf = t.buf
          ∧ u.shape.length = t.shape.length
          ∧ (∀ i, i < perm.length →
              u.shape.getD i 0 = t.shape.getD (perm.getD i 0) 0
              ∧ u.strides.getD i 0 = t.strides.getD (perm.getD i 0) 0))
    ∧ t.transpose (List.range t.shape.length) = .ok t := by
  refine ⟨?_, ?_, ?_⟩
  · unfold CpuTensor.transpose
    by_cases hp : perm.length ≠ t.shape.length
    · rw [if_pos hp]
      simp [PResult.isTensorError, hp]
    · rw [if_neg hp]
      push_neg at hp
      by_cases hall : perm.all
          (fun d => decide (d < t.shape.length) && decide (d < t.strides.length))
          = true
      · rw [if_pos hall]
        simp [PResult.isTensorError, hp]
      · rw [if_neg hall]
        simp [PResult.isTensorError, hp]
  · intro hperm
    have hplen : perm.length = t.shape.length := by
      rw [hperm.length_eq, List.length_range]
    have hmem : ∀ d ∈ perm, d < t.shape.length := by
      intro d hd
      have := hperm.mem_iff.mp hd
      rwa [List.mem_range] at this
    unfold CpuTensor.transpose
    rw [if_neg (not_not_intro hplen)]
    rw [if_pos (List.all_eq_true.mpr (fun d hd => by
      simp only [Bool.and_eq_true, decide_eq_true_eq]
      exact ⟨hmem d hd, by rw [hs]; exact hmem d hd⟩))]
    refine ⟨_, rfl, rfl, ?_, ?_⟩
    · show (perm.map (fun d => t.shape.getD d 0)).length = t.shape.length
      rw [List.length_map, hplen]
    · intro i hi
      have hp : perm.getD i 0 = perm[i] := by
        rw [List.getD_eq_getElem?_getD, List.getElem?_eq_getElem hi]
        rfl
      constructor
      · show (perm.map (fun d => t.shape.getD d 0)).getD i 0
          = t.shape.getD (perm.getD i 0) 0
        rw [List.getD_eq_getElem?_getD, List.getElem?_map,
          List.getElem?_eq_getElem hi, Option.map_some', Option.getD_some, hp]
      · show (perm.map (fun d => t.strides.getD d 0)).getD i 0
          = t.strides.getD (perm.getD i 0) 0
        rw [List.getD_eq_getElem?_getD, List.getElem?_map,
          List.getElem?_eq_getElem hi, Option.map_some', Option.getD_some, hp]
  · unfold CpuTensor.transpose
    rw [if_neg (not_not_intro (by rw [List.length_range]))]
    rw [if_pos (List.all_eq_true.mpr (fun d hd => by
      rw [List.mem_range] at hd
      simp only [Bool.and_eq_true, decide_eq_true_eq]
      exact ⟨hd, by rw [hs]; exact hd⟩))]
    rw [range_map_getD t.shape 0]
    have h2 : (List.range t.shape.length).map (fun d => t.strides.getD d 0)
        = t.strides := by
      rw [← hs]
      exact range_map_getD t.strides 0
    rw [h2]

theorem transpose_spec_witness :
    ex23.strides.length = ex23.shape.length
    ∧ ex23.transpose (List.range ex23.shape.length) = .ok ex23 :=
  ⟨by decide, (transpose_spec ex23 [1, 0] (by decide)).2.2⟩

/-! ### Claim C4 -/

theorem iter_length_of_hbuf (t : CpuTensor)
    (hbuf : t.buf.length = t.shape.prod) :
    t.iter.length = t.shape.prod := by
  unfold CpuTensor.iter
  by_cases h1 : t.shape.length = 1
  · rw [if_pos h1]
    obtain ⟨a, ha⟩ := List.length_eq_one.mp h1
    rw [List.length_map, List.length_range, ha]
    simp
  · rw [if_neg h1]
    rw [List.length_map, List.length_range, hbuf]

/-- Claim C4 counterexample: a reachable tensor (from `new`, `transpose`,
`subtensor`) whose iteration yields 8 elements although `product(shape) = 4`,
because `TensorIterator` is bounded by the buffer length. -/
theorem iter_length_counterexample :
    CpuTensor.new [1, 2, 3, 4, 5, 6, 7, 8] false [2, 2, 2]
        = .ok ⟨[1, 2, 3, 4, 5, 6, 7, 8], false, [2, 2, 2], [4, 2, 1], none⟩
    ∧ (⟨[1, 2, 3, 4, 5, 6, 7, 8], false, [2, 2, 2], [4, 2, 1], none⟩ :
        CpuTensor).transpose [0, 2, 1]
        = .ok ⟨[1, 2, 3, 4, 5, 6, 7, 8], false, [2, 2, 2], [4, 1, 2], none⟩
    ∧ (⟨[1, 2, 3, 4, 5, 6, 7, 8], false, [2, 2, 2], [4, 1, 2], none⟩ :
        CpuTensor).subtensor 0 = .ok exLoose
    ∧ exLoose.shape.prod = 4
    ∧ exLoose.iter.length = 8
    ∧ exLoose.iter = [1, 3, 2, 4, 1, 3, 2, 4] := by
  decide

/-- Claim C4 (amended): for every tensor whose buffer length equals
`product(shape)` and whose strided offsets stay inside the buffer, `iter`
yields exactly `product(shape)` elements, the `k`-th being `at(idx_k)` for
the row-major decomposition `idx_k` of `k`; a canonically-strided tensor
iterates exactly its buffer, and the transposed `[2,3]` tensor over `[1..6]`
yields `[1,4,2,5,3,6]`. -/
theorem iter_spec_amended (t : CpuTensor)
    (hbuf : t.buf.length = t.shape.prod)
    (hin : ∀ k, k < t.shape.prod →
      t.buf_offset (unravel t.shape k) < t.buf.length) :
    t.iter.length = t.shape.prod
    ∧ (∀ k, k < t.shape.prod →
        t.at (unravel t.shape k) = .ok (t.iter.getD k 0))
    ∧ (t.strides = canonStrides t.shape → t.iter = t.buf)
    ∧ (ex23.transpose [1, 0] = .ok exT ∧ exT.iter = [1, 4, 2, 5, 3, 6]) := by
  refine ⟨iter_length_of_hbuf t hbuf, ?_, fun hs => iter_canon t hs hbuf,
    by decide⟩
  intro k hk
  have hpos := pos_of_lt_prod t.shape k hk
  have hulen : (unravel t.shape k).length = t.shape.length :=
    unravel_length t.shape k
  have hvalid : ∀ i, i < (unravel t.shape k).length →
      (unravel t.shape k).getD i 0 < t.shape.getD i 0 := by
    intro i hi
    rw [hulen] at hi
    exact unravel_getD_lt t.shape k hpos i hi
  have hoff := hin k hk
  have hv : t.buf[t.buf_offset (unravel t.shape k)]?
      = some (t.buf.getD (t.buf_offset (unravel t.shape k)) 0) := by
    rw [List.getElem?_eq_getElem hoff, List.getD_eq_getElem?_getD,
      List.getElem?_eq_getElem hoff]
    rfl
  have hival : t.iter.getD k 0
      = t.buf.getD (t.buf_offset (unravel t.shape k)) 0 := by
    unfold CpuTensor.iter
    by_cases h1 : t.shape.length = 1
    · rw [if_pos h1]
      obtain ⟨a, ha⟩ := List.length_eq_one.mp h1
      have hka : k < t.shape.getD 0 0 := by
        rw [ha] at hk ⊢
        simpa using hk
      rw [getD_map_range _ _ k hka 0]
      have hunr : unravel t.shape k = [k] := by
        rw [ha]
        show (unravelRev [a] k).reverse = [k]
        have hka2 : k < a := by
          rw [ha] at hka
          simpa using hka
        simp [unravelRev, Nat.mod_eq_of_lt hka2]
      rw [hunr]
      show t.buf.getD (k * t.strides.getD 0 0) 0
          = t.buf.getD (List.zipWith (fun d s => d * s) [k] t.strides).sum 0
      cases t.strides with
      | nil => simp
      | cons s0 rest => simp
    · rw [if_neg h1]
      rw [getD_map_range _ _ k (by omega) 0]
  rw [hival]
  exact at_ok t (unravel t.shape k) hulen hvalid _ hv

theorem iter_spec_amended_witness :
    exT.buf.length = exT.shape.prod
    ∧ (∀ k, k < exT.shape.prod →
        exT.buf_offset (unravel exT.shape k) < exT.buf.length)
    ∧ exT.iter.length = exT.shape.prod :=
  ⟨by decide, by decide,
   (iter_spec_amended exT (by decide) (by decide)).1⟩

/-! ### Claim C5 -/

theorem new_ok_of_len (buf : List Int) (ow : Bool) (shape : List Nat)
    (hlen : buf.length = shape.prod) (hsh : shape ≠ []) :
    CpuTensor.new buf ow shape = .ok ⟨buf, ow, shape, canonStrides shape, none⟩ := by
  unfold CpuTensor.new CpuTensor.new_unchecked
  rw [if_neg (not_not_intro hlen), newStrides_eq_canon shape hsh]

/-- Claim C5 counterexample: a reachable non-contiguous tensor on which
`contiguous()` does not succeed — it returns `TensorError`, because the
collected iteration has 8 elements while `product(shape) = 4`. -/
theorem contiguous_counterexample :
    CpuTensor.new [1, 2, 3, 4, 5, 6, 7, 8] false [2, 2, 2]
        = .ok ⟨[1, 2, 3, 4, 5, 6, 7, 8], false, [2, 2, 2], [4, 2, 1], none⟩
    ∧ (⟨[1, 2, 3, 4, 5, 6, 7, 8], false, [2, 2, 2], [4, 2, 1], none⟩ :
        CpuTensor).transpose [0, 2, 1]
        = .ok ⟨[1, 2, 3, 4, 5, 6, 7, 8], false, [2, 2, 2], [4, 1, 2], none⟩
    ∧ (⟨[1, 2, 3, 4, 5, 6, 7, 8], false, [2, 2, 2], [4, 1, 2], none⟩ :
        CpuTensor).subtensor 0 = .ok exLoose
    ∧ exLoose.is_contiguous = false
    ∧ (exLoose.contiguous).isTensorError = true := by
  decide

/-- The element the iteration model yields at logical position `k` is the
`getD` read of the buffer at the strided offset of `k`'s multi-index (the
same offset the Rust iterators index with). -/
theorem iter_getD_offset (t : CpuTensor)
    (hbuf : t.buf.length = t.shape.prod) (k : Nat) (hk : k < t.shape.prod) :
    t.iter.getD k 0 = t.buf.getD (t.buf_offset (unravel t.shape k)) 0 := by
  unfold CpuTensor.iter
  by_cases h1 : t.shape.length = 1
  · rw [if_pos h1]
    obtain ⟨a, ha⟩ := List.length_eq_one.mp h1
    have hka : k < t.shape.getD 0 0 := by
      rw [ha] at hk ⊢
      simpa using hk
    rw [getD_map_range _ _ k hka 0]
    have hka2 : k < a := by
      rw [ha] at hka
      simpa using hka
    have hunr : unravel t.shape k = [k] := by
      rw [ha]
      show (unravelRev [a] k).reverse = [k]
      simp [unravelRev, Nat.mod_eq_of_lt hka2]
    rw [hunr]
    show t.buf.getD (k * t.strides.getD 0 0) 0
        = t.buf.getD (List.zipWith (fun d s => d * s) [k] t.strides).sum 0
    cases t.strides with
    | nil => simp
    | cons s0 rest => simp
  · rw [if_neg h1]
    rw [getD_map_range _ _ k (by omega) 0]

/-- Claim C5 (amended): `contiguous()` on a contiguous tensor returns the
same tensor; on a non-contiguous tensor whose buffer length equals
`product(shape)` and whose strided offsets all stay inside the buffer (so
the collecting iteration reads real buffer elements instead of panicking),
it succeeds with the same shape, canonical strides, a contiguous result, and
the same iteration sequence (which is also the new buffer). -/
theorem contiguous_spec_amended (t : CpuTensor)
    (hlen : t.strides.length = t.shape.length)
    (hbuf : t.buf.length = t.shape.prod)
    (hin : ∀ k, k < t.shape.prod →
      t.buf_offset (unravel t.shape k) < t.buf.length) :
    (t.is_contiguous = true → t.contiguous = .ok t)
    ∧ (t.is_contiguous = false →
        (∀ k, k < t.shape.prod →
          t.buf[t.buf_offset (unravel t.shape k)]? = some (t.iter.getD k 0))
        ∧ ∃ u, t.contiguous = .ok u
          ∧ u.shape = t.shape
          ∧ u.strides = canonStrides t.shape
          ∧ u.is_contiguous = true
          ∧ u.buf = t.iter
          ∧ u.iter = t.iter) := by
  constructor
  · intro hc
    unfold CpuTensor.contiguous
    rw [if_pos hc]
  · intro hc
    constructor
    · intro k hk
      rw [iter_getD_offset t hbuf k hk,
        List.getElem?_eq_getElem (hin k hk),
        List.getD_eq_getElem?_getD, List.getElem?_eq_getElem (hin k hk)]
      rfl
    have hsh : t.shape ≠ [] := by
      intro hcon
      have : t.strides = [] := by
        rw [hcon] at hlen
        exact List.length_eq_zero.mp hlen
      have : t.is_contiguous = true := by
        unfold CpuTensor.is_contiguous
        rw [if_pos (by rw [this]; rfl)]
      rw [this] at hc
      exact absurd hc (by simp)
    unfold CpuTensor.contiguous
    rw [if_neg (by rw [hc]; simp)]
    have hilen : t.iter.length = t.shape.prod := iter_length_of_hbuf t hbuf
    rw [new_ok_of_len t.iter true t.shape hilen hsh]
    refine ⟨_, rfl, rfl, rfl, is_contiguous_canon _ rfl, rfl, ?_⟩
    exact iter_canon ⟨t.iter, true, t.shape, canonStrides t.shape, none⟩
      rfl hilen

theorem contiguous_spec_amended_witness :
    (ex23.strides.length = ex23.shape.length
      ∧ ex23.buf.length = ex23.shape.prod
      ∧ (∀ k, k < ex23.shape.prod →
          ex23.buf_offset (unravel ex23.shape k) < ex23.buf.length)
      ∧ ex23.is_contiguous = true)
    ∧ ex23.contiguous = .ok ex23 :=
  ⟨⟨by decide, by decide, by decide, by decide⟩,
   (contiguous_spec_amended ex23 (by decide) (by decide) (by decide)).1
     (by decide)⟩

/-! ### Claim C6 -/

/-- Claim C6: `subtensor(rowIndex)` fails with `TensorError` iff
`rank ≤ 1`; on a contiguous tensor of rank ≥ 2 (with the selected row range
inside the buffer) it returns shape `shape[1:]`, strides `strides[1:]`, and
the buffer sub-range starting at `rowIndex * strides[0]` of length
`strides[0]`; concretely for shape `[2,3,1]` over `[1..6]`,
`subtensor(0).buffer = [1,2,3]` and `subtensor(1).buffer = [4,5,6]`. -/
theorem subtensor_spec (t : CpuTensor) (row : Nat) :
    ((t.subtensor row).isTensorError = true ↔ t.shape.length ≤ 1)
    ∧ (t.is_contiguous = true → 2 ≤ t.shape.length →
        row * t.strides.getD 0 0 + t.strides.getD 0 0 ≤ t.buf.length →
        t.subtensor row
          = .ok ⟨(t.buf.drop (row * t.strides.getD 0 0)).take
                (t.strides.getD 0 0),
              t.owned, t.shape.tail, t.strides.tail, t.name⟩)
    ∧ (CpuTensor.new [1, 2, 3, 4, 5, 6] false [2, 3, 1] = .ok ex231
        ∧ ex231.subtensor 0 = .ok ⟨[1, 2, 3], false, [3, 1], [1, 1], none⟩
        ∧ ex231.subtensor 1 = .ok ⟨[4, 5, 6], false, [3, 1], [1, 1], none⟩) := by
  refine ⟨?_, ?_, by decide⟩
  · unfold CpuTensor.subtensor
    by_cases h1 : t.shape.length ≤ 1
    · rw [if_pos h1]
      simp [PResult.isTensorError, h1]
    · rw [if_neg h1]
      by_cases hc : t.is_contiguous
      · rw [if_pos hc]
        by_cases hb : row * t.strides.getD 0 0 + t.strides.getD 0 0
            ≤ t.buf.length
        · rw [if_pos hb]
          simp [PResult.isTensorError, h1]
        · rw [if_neg hb]
          simp [PResult.isTensorError, h1]
      · rw [if_neg hc]
        by_cases hb : t.buf_offset
            (row :: List.replicate (t.shape.length - 1) 0) ≤ t.buf.length
        · rw [if_pos hb]
          simp [PResult.isTensorError, h1]
        · rw [if_neg hb]
          simp [PResult.isTensorError, h1]
  · intro hc h2 hb
    unfold CpuTensor.subtensor
    rw [if_neg (by omega), if_pos hc, if_pos hb]

theorem subtensor_spec_witness :
    (ex231.is_contiguous = true ∧ 2 ≤ ex231.shape.length
      ∧ 1 * ex231.strides.getD 0 0 + ex231.strides.getD 0 0
          ≤ ex231.buf.length)
    ∧ ex231.subtensor 1 = .ok ⟨[4, 5, 6], false, [3, 1], [1, 1], none⟩ :=
  ⟨by decide,
   ((subtensor_spec ex231 1).2.1 (by decide) (by decide) (by decide)).trans
     (by decide)⟩

/-! ### Claim C7 -/

theorem isTensorError_elim {α : Type} (r : PResult α)
    (h : r.isTensorError = true) :
    ∃ e, r = .err e ∧ e.kind = ErrorKind.TensorError := by
  cases r with
  | ok v => simp [PResult.isTensorError] at h
  | panic => simp [PResult.isTensorError] at h
  | err e =>
    refine ⟨e, rfl, ?_⟩
    have : (e.kind == ErrorKind.TensorError) = true := h
    exact eq_of_beq this

theorem mut_chunk_borrowed (t : CpuTensor) (hb : t.owned = false)
    (pos : List Nat) : (t.mut_chunk pos).isTensorError = true := by
  unfold CpuTensor.mut_chunk
  by_cases hc : t.is_contiguous = true
  · rw [if_neg (not_not_intro hc)]
    rw [if_pos (show ¬ t.is_owned = true from by
      rw [CpuTensor.is_owned, hb]; simp)]
    rfl
  · rw [if_pos hc]
    rfl

theorem copy_chunk_borrowed (t : CpuTensor) (hb : t.owned = false)
    (pos : List Nat) (data : CpuTensor) :
    (t.copy_chunk pos data).isTensorError = true := by
  obtain ⟨e, he, hk⟩ := isTensorError_elim _ (mut_chunk_borrowed t hb pos)
  unfold CpuTensor.copy_chunk
  rw [he]
  simp [PResult.isTensorError, hk]

theorem ref_chunk_ok (t : CpuTensor) (pos : List Nat)
    (hc : t.is_contiguous = true) (h1 : 1 ≤ pos.length)
    (h2 : pos.length < t.shape.length)
    (hb : (List.zipWith (fun p q => p * q) pos t.strides).sum
        + t.strides.getD (pos.length - 1) 0 ≤ t.buf.length) :
    t.ref_chunk pos
      = .ok ((t.buf.drop
            ((List.zipWith (fun p q => p * q) pos t.strides).sum)).take
          (t.strides.getD (pos.length - 1) 0)) := by
  unfold CpuTensor.ref_chunk
  rw [if_neg (not_not_intro hc), if_neg (by omega), if_neg (by omega),
    if_pos hb, Nat.add_sub_cancel_left]

theorem write_range_buf (t : CpuTensor) (a e : Nat) (data : List Int) :
    (t.write_range a e data).buf = t.buf.take a ++ data ++ t.buf.drop e := rfl

theorem write_range_shape (t : CpuTensor) (a e : Nat) (data : List Int) :
    (t.write_range a e data).shape = t.shape := rfl

theorem write_range_strides (t : CpuTensor) (a e : Nat) (data : List Int) :
    (t.write_range a e data).strides = t.strides := rfl

/-- Claim C7: on every borrowed-mode tensor, `mut_chunk`, `copy_chunk` and
`mut_buf` fail with `TensorError`; on an owned contiguous tensor with an
in-bounds position of length between 1 and rank-1 the same calls succeed, and
data written through the chunk is visible to a subsequent `ref_chunk` read.
Concretely, overwriting chunk `[0]` of the owned `[2,3]` tensor with
`[9,2,3]` is seen by `ref_chunk([0])`. -/
theorem mutation_guard_spec (t : CpuTensor) :
    (t.owned = false →
        (∀ pos, (t.mut_chunk pos).isTensorError = true)
        ∧ (∀ pos data, (t.copy_chunk pos data).isTensorError = true)
        ∧ (t.mut_buf).isTensorError = true)
    ∧ (t.owned = true → t.is_contiguous = true →
        ∀ pos, 1 ≤ pos.length → pos.length < t.shape.length →
          (List.zipWith (fun p q => p * q) pos t.strides).sum
              + t.strides.getD (pos.length - 1) 0 ≤ t.buf.length →
          ∃ a e, t.mut_chunk pos = .ok (a, e)
            ∧ t.mut_buf = .ok t.buf
            ∧ ∀ data : CpuTensor, data.ref_buf.length = e - a →
                ∃ u, t.copy_chunk pos data = .ok u
                  ∧ u.ref_chunk pos = .ok data.ref_buf)
    ∧ (exOwned.copy_chunk [0] ⟨[9, 2, 3], true, [3], [1], none⟩
          = .ok ⟨[9, 2, 3, 4, 5, 6], true, [2, 3], [3, 1], none⟩
        ∧ (⟨[9, 2, 3, 4, 5, 6], true, [2, 3], [3, 1], none⟩ :
            CpuTensor).ref_chunk [0] = .ok [9, 2, 3]) := by
  refine ⟨?_, ?_, by decide⟩
  · intro hb
    refine ⟨mut_chunk_borrowed t hb, copy_chunk_borrowed t hb, ?_⟩
    simp [CpuTensor.mut_buf, hb, PResult.isTensorError]
  · intro ho hc pos h1 h2 hbound
    have hmc : t.mut_chunk pos = .ok
        ((List.zipWith (fun p q => p * q) pos t.strides).sum,
          (List.zipWith (fun p q => p * q) pos t.strides).sum
            + t.strides.getD (pos.length - 1) 0) := by
      unfold CpuTensor.mut_chunk
      rw [if_neg (not_not_intro hc),
        if_neg (not_not_intro (show t.is_owned = true from by
          rw [CpuTensor.is_owned, ho])),
        if_neg (by omega), if_neg (by omega), if_pos hbound]
    refine ⟨_, _, hmc, by simp [CpuTensor.mut_buf, ho], ?_⟩
    intro data hdata
    refine ⟨t.write_range
        ((List.zipWith (fun p q => p * q) pos t.strides).sum)
        ((List.zipWith (fun p q => p * q) pos t.strides).sum
          + t.strides.getD (pos.length - 1) 0) data.ref_buf, ?_, ?_⟩
    · unfold CpuTensor.copy_chunk
      rw [hmc]
      show (if data.ref_buf.length
            = (List.zipWith (fun p q => p * q) pos t.strides).sum
                + t.strides.getD (pos.length - 1) 0
              - (List.zipWith (fun p q => p * q) pos t.strides).sum
          then PResult.ok (t.write_range
            ((List.zipWith (fun p q => p * q) pos t.strides).sum)
            ((List.zipWith (fun p q => p * q) pos t.strides).sum
              + t.strides.getD (pos.length - 1) 0) data.ref_buf)
          else PResult.panic) = _
      rw [if_pos hdata]
    · set a := (List.zipWith (fun p q => p * q) pos t.strides).sum with ha
      set st := t.strides.getD (pos.length - 1) 0 with hst
      have hta : (t.buf.take a).length = a := by
        rw [List.length_take]
        omega
      have htd : data.ref_buf.length = st := by omega
      have hul : (t.write_range a (a + st) data.ref_buf).buf.length
          = t.buf.length := by
        rw [write_range_buf, List.length_append, List.length_append,
          List.length_take, List.length_drop]
        omega
      rw [ref_chunk_ok (t.write_range a (a + st) data.ref_buf) pos
        (show (t.write_range a (a + st) data.ref_buf).is_contiguous = true
          from hc)
        h1
        (show pos.length < (t.write_range a (a + st) data.ref_buf).shape.length
          from h2)
        (by rw [write_range_strides, hul, ← ha, ← hst]; exact hbound)]
      rw [write_range_strides, write_range_buf, ← ha, ← hst]
      rw [List.append_assoc, List.drop_left' hta, List.take_left' htd]

theorem mutation_guard_spec_witness :
    ex23.owned = false ∧ (ex23.mut_buf).isTensorError = true :=
  ⟨rfl, ((mutation_guard_spec ex23).1 rfl).2.2⟩

/-! ### Claim C8 -/

/-- Claim C8 counterexample: a tensor reachable through `new` and `transpose`
that `is_contiguous` reports as contiguous although its strides are not the
canonical row-major strides of its shape — the stated condition at `i = 0`
(`strides[0] = strides[1] * shape[1]`) fails, because the loop in
`is_contiguous` never inspects `strides[0]`. -/
theorem is_contiguous_counterexample :
    CpuTensor.new [1, 2, 3, 4, 5, 6] false [2, 1, 3]
        = .ok ⟨[1, 2, 3, 4, 5, 6], false, [2, 1, 3], [3, 3, 1], none⟩
    ∧ (⟨[1, 2, 3, 4, 5, 6], false, [2, 1, 3], [3, 3, 1], none⟩ :
        CpuTensor).transpose [1, 0, 2] = .ok exC8
    ∧ exC8.is_contiguous = true
    ∧ exC8.strides ≠ canonStrides exC8.shape
    ∧ exC8.strides.getD 0 0 ≠ exC8.strides.getD 1 0 * exC8.shape.getD 1 0 := by
  decide

/-- Claim C8 (amended): `is_contiguous` returns true iff the strides are
empty, or the last stride is 1 and `strides[i] = strides[i+1] * shape[i+1]`
for every `i` from the end down to `i = 1` — `strides[0]` is never
checked. -/
theorem is_contiguous_spec_amended (t : CpuTensor)
    (hlen : t.strides.length = t.shape.length) :
    t.is_contiguous = true ↔
      (t.strides = [] ∨
        (t.strides.getLastD 0 = 1
          ∧ ∀ i, 1 ≤ i → i + 1 < t.shape.length →
              t.strides.getD i 0
                = t.strides.getD (i + 1) 0 * t.shape.getD (i + 1) 0)) := by
  rw [is_contiguous_iff_suffix t hlen]
  constructor
  · rintro (h | ⟨hl, hs⟩)
    · exact Or.inl h
    · exact Or.inr ⟨hl, (suffix_iff_step t.shape t.strides hlen hl).mp hs⟩
  · rintro (h | ⟨hl, hs⟩)
    · exact Or.inl h
    · exact Or.inr ⟨hl, (suffix_iff_step t.shape t.strides hlen hl).mpr hs⟩

theorem is_contiguous_spec_amended_witness :
    ex231.strides.length = ex231.shape.length ∧ ex231.is_contiguous = true := by
  refine ⟨by decide, ?_⟩
  rw [is_contiguous_spec_amended ex231 (by decide)]
  right
  refine ⟨by decide, ?_⟩
  intro i h1 h2
  have h3 : ex231.shape.length = 3 := by decide
  have h4 : i = 1 := by omega
  subst h4
  decide

/-! ### Claim C9 -/

/-- Claim C9: `new(buffer, [])` with a length-1 buffer passes the length
check (the empty product is 1) but panics in the stride-construction loop
instead of returning a rank-0 tensor, and `new` never returns a rank-0
tensor. -/
theorem rank0_new_panics (buf : List Int) (ow : Bool) :
    (buf.length = 1 → CpuTensor.new buf ow [] = .panic)
    ∧ ∀ t, CpuTensor.new buf ow [] ≠ .ok t := by
  constructor
  · intro h
    unfold CpuTensor.new
    rw [if_neg (by simp [h])]
    rfl
  · intro t hcon
    obtain ⟨_, hsh, _⟩ := new_ok_elim buf ow [] t hcon
    exact hsh rfl

theorem rank0_new_panics_witness :
    ([(5 : Int)].length = 1) ∧ CpuTensor.new [5] false [] = .panic :=
  ⟨rfl, (rank0_new_panics [5] false).1 rfl⟩

/-! ### Claim C10 -/

/-- Claim C10 counterexample: on a borrowed contiguous tensor of rank ≥ 1,
`mut_chunk([])` does not panic — it fails with `TensorError` at the ownership
check, which precedes the position arithmetic. -/
theorem empty_pos_counterexample :
    ex23.is_contiguous = true
    ∧ 1 ≤ ex23.shape.length
    ∧ ex23.owned = false
    ∧ (ex23.mut_chunk []).isTensorError = true
    ∧ ex23.mut_chunk [] ≠ .panic := by
  decide

/-- Claim C10 (amended): on every contiguous tensor of rank ≥ 1 the empty
position passes the `position.length < rank` check and then panics in
`strides[position.length - 1]` — for `ref_chunk` always, and for `mut_chunk`
when the tensor is owned; a borrowed tensor instead hits the earlier
ownership `TensorError`. -/
theorem empty_pos_spec_amended (t : CpuTensor)
    (hc : t.is_contiguous = true) (hr : 1 ≤ t.shape.length) :
    t.ref_chunk [] = .panic
    ∧ (t.owned = true → t.mut_chunk [] = .panic)
    ∧ (t.owned = false → (t.mut_chunk []).isTensorError = true) := by
  refine ⟨?_, ?_, fun hb => mut_chunk_borrowed t hb []⟩
  · unfold CpuTensor.ref_chunk
    rw [if_neg (not_not_intro hc),
      if_neg (by simp only [List.length_nil]; omega),
      if_pos (show ([] : List Nat).length = 0 from rfl)]
  · intro ho
    unfold CpuTensor.mut_chunk
    rw [if_neg (not_not_intro hc),
      if_neg (not_not_intro (show t.is_owned = true from by
        rw [CpuTensor.is_owned, ho])),
      if_neg (by simp only [List.length_nil]; omega),
      if_pos (show ([] : List Nat).length = 0 from rfl)]

theorem empty_pos_spec_amended_witness :
    (exOwned.is_contiguous = true ∧ 1 ≤ exOwned.shape.length
      ∧ exOwned.owned = true)
    ∧ exOwned.ref_chunk [] = .panic ∧ exOwned.mut_chunk [] = .panic := by
  refine ⟨by decide, ?_, ?_⟩
  · exact (empty_pos_spec_amended exOwned (by decide) (by decide)).1
  · exact (empty_pos_spec_amended exOwned (by decide) (by decide)).2.1 rfl
